import Mathlib

/-!
Shallow embedding of the reasoning module of SillyTavern
(src/public/scripts/reasoning.js): the prefix/suffix extraction parser
(parseReasoningFromString), the streaming reasoning lifecycle tracker
(ReasoningHandler.process / ReasoningHandler.finish / getDuration), and
the prompt-injection counter (PromptReasoning.addToMessage /
isLimitReached).

Strings handled by the extraction parser are modelled as lists of
characters, which matches JavaScript's sequence-of-code-units view of
strings closely enough for the matching logic.  The JavaScript regular
expression built by parseReasoningFromString is
escapeRegex(prefixSetting) ++ "(.*?)" ++ escapeRegex(suffixSetting) with
the dot-all flag: since both ends are regex-escaped they match literally,
so the regex semantics is: the first (leftmost) position where the prefix
literal occurs and is followed, at or after its end, by an occurrence of
the suffix literal; the capture group is the (shortest, i.e. non-greedy)
text strictly between them.  That literal-matching semantics is what
reSplit below implements by direct scanning.
-/

namespace Reasoning

/-- Boolean test that `pat` is a leading segment of `s` (JavaScript's
literal match of the escaped pattern at one position). -/
def startsWithL : List Char → List Char → Bool
  | [], _ => true
  | _ :: _, [] => false
  | p :: ps, c :: cs => p == c && startsWithL ps cs

/-- Index of the first occurrence of `pat` in `s`, scanning left to right,
like the regex engine searching for the literal suffix. -/
def findSub (pat : List Char) : List Char → Option Nat
  | [] => if startsWithL pat [] then some 0 else none
  | c :: rest =>
    if startsWithL pat (c :: rest) then some 0
    else (findSub pat rest).map (· + 1)

/-- Attempt the regex match anchored at the current position: the prefix
literal must match here, and the suffix literal must occur somewhere at or
after the prefix's end (the non-greedy capture takes the earliest such
suffix occurrence).  Returns (capture, remainder-after-the-whole-match). -/
def tryHere (p suf s : List Char) : Option (List Char × List Char) :=
  if startsWithL p s then
    match findSub suf (s.drop p.length) with
    | some j => some ((s.drop p.length).take j, (s.drop p.length).drop (j + suf.length))
    | none => none
  else none

/-- First match of the dot-all regex `p(.*?)suf` over `s`, scanning start
positions left to right as the regex engine does.  Returns
(text-before-the-match, capture group, text-after-the-match). -/
def reSplit (p suf : List Char) : List Char → Option (List Char × List Char × List Char)
  | [] => (tryHere p suf []).map (fun x => ([], x.1, x.2))
  | c :: s =>
    match tryHere p suf (c :: s) with
    | some x => some ([], x.1, x.2)
    | none => (reSplit p suf s).map (fun x => (c :: x.1, x.2.1, x.2.2))

/-- Leading/trailing-whitespace trim on character lists (String.trim of
the host language, restricted to the whitespace characters that occur in
the specified behaviour). -/
def trimChars (s : List Char) : List Char :=
  ((s.dropWhile Char.isWhitespace).reverse.dropWhile Char.isWhitespace).reverse

/-- Result record of parseReasoningFromString: the extracted reasoning
block and the remaining message content. -/
structure ParsedReasoning where
  reasoning : List Char
  content : List Char
deriving DecidableEq, Repr

/-- parseReasoningFromString(str) from reasoning.js: returns none when the
configured prefix or suffix is empty, otherwise removes the first
prefix(.*?)suffix span (dot-all, both ends regex-escaped so matched
literally) from the input, returning the capture as reasoning and the
rest as content; when a replacement happened and trim-spaces is on, both
parts are trimmed.  The JavaScript try/catch around regex construction
never fires for escaped literals, which the total function models. -/
def parseReasoningFromString (pfx sfx : List Char) (trimSpaces : Bool)
    (str : List Char) : Option ParsedReasoning :=
  if pfx = [] ∨ sfx = [] then
    none
  else
    match reSplit pfx sfx str with
    | none => some ⟨[], str⟩
    | some (before, captured, after) =>
      let reasoning := captured
      let content := before ++ after
      if trimSpaces then some ⟨trimChars reasoning, trimChars content⟩
      else some ⟨reasoning, content⟩

/-- The literal pattern `pat` occurs in `s` starting at index `i`. -/
def occursAt (pat s : List Char) (i : Nat) : Prop :=
  startsWithL pat (s.drop i) = true

/-- The configured prefix, followed (possibly across line breaks: dot-all)
by the configured suffix, occurs somewhere in `s`. -/
def matchExists (p suf s : List Char) : Prop :=
  ∃ i j, occursAt p s i ∧ occursAt suf s j ∧ i + p.length ≤ j

/-- The regex can match anchored at the start of `s`: the prefix literal
matches here and the suffix literal occurs at or after its end. -/
def matchHere (p suf s : List Char) : Prop :=
  startsWithL p s = true ∧ ∃ j, startsWithL suf ((s.drop p.length).drop j) = true

/-- Session-wide configuration and environment of a ReasoningHandler:
the private hidden-model flag captured in the constructor, the
power_user.trim_spaces setting, the regex post-processing hook
getRegexedString(-, REASONING) as an abstract string transformer, and the
generation's nominal start time (the timeStarted constructor argument).
Times are modelled as integer milliseconds of the Date values. -/
structure RHConfig where
  isHidden : Bool
  trimSpaces : Bool
  regexFn : String → String
  initialTime : Int

/-- Mutable per-session state of a ReasoningHandler together with the
reasoning slot of the owning message's extra bag (chat[messageId].extra
.reasoning, none when the key is absent). -/
structure RHState where
  reasoning : String
  startTime : Option Int
  endTime : Option Int
  extraReasoning : Option String
deriving DecidableEq, Repr

/-- Payload of a STREAM_REASONING_DONE emission: the final reasoning text
and the value the lazy duration-resolver callback produces once the
handler state has settled. -/
structure Emission where
  text : String
  duration : Option Int
deriving DecidableEq, Repr

/-- ReasoningHandler.getDuration: end minus start in milliseconds when
both timestamps are set, null otherwise. -/
def getDuration (s : RHState) : Option Int :=
  match s.startTime, s.endTime with
  | some st, some en => some (en - st)
  | _, _ => none

/-- The finalReasoning value process computes this cycle: the accumulated
reasoning after the regex hook, trimmed when trim_spaces is on. -/
def finalReasoningOf (cfg : RHConfig) (s : RHState) : String :=
  if cfg.trimSpaces then (cfg.regexFn s.reasoning).trim else cfg.regexFn s.reasoning

/-- The reasoningChanged flag process computes this cycle: the stored
extra.reasoning differs from this cycle's finalReasoning. -/
def reasoningChangedOf (cfg : RHConfig) (s : RHState) : Bool :=
  s.extraReasoning != some (finalReasoningOf cfg s)

/-- The value of this.startTime right after the start-condition line of
process: set to the generation's initial time when (hidden or the
reasoning changed) and no start time is recorded yet. -/
def startTimeAfter (cfg : RHConfig) (s : RHState) : Option Int :=
  if (cfg.isHidden || reasoningChangedOf cfg s) && s.startTime.isNone
  then some cfg.initialTime else s.startTime

/-- The end-condition line of process: (hidden or the reasoning did not
change) and the message text changed and a start time exists (after the
start-condition line ran) and no end time exists. -/
def endCondition (cfg : RHConfig) (s : RHState) (mesChanged : Bool) : Bool :=
  (cfg.isHidden || !reasoningChangedOf cfg s) && mesChanged
    && (startTimeAfter cfg s).isSome && s.endTime.isNone

/-- ReasoningHandler.process(messageId, mesChanged, currentTime): early
return when there is no reasoning text and the model is not hidden;
otherwise run the regex hook, store the (possibly trimmed) reasoning on
the message, set startTime to the generation's initial time on the first
cycle where the stored reasoning changed (or always for hidden models),
and when the end condition holds set endTime to the current time and emit
the STREAM_REASONING_DONE event with the final text and the duration
resolver.  Returns the new state and the emission, if any. -/
def process (cfg : RHConfig) (s : RHState) (mesChanged : Bool) (currentTime : Int) :
    RHState × Option Emission :=
  if s.reasoning == "" && !cfg.isHidden then (s, none)
  else if endCondition cfg s mesChanged then
    (⟨cfg.regexFn s.reasoning, startTimeAfter cfg s, some currentTime,
        some (finalReasoningOf cfg s)⟩,
      some ⟨finalReasoningOf cfg s,
        getDuration ⟨cfg.regexFn s.reasoning, startTimeAfter cfg s, some currentTime,
          some (finalReasoningOf cfg s)⟩⟩)
  else
    (⟨cfg.regexFn s.reasoning, startTimeAfter cfg s, s.endTime,
        some (finalReasoningOf cfg s)⟩, none)

/-- ReasoningHandler.finish(messageId): if a reasoning was in process and
was not ended during streaming (startTime set, endTime not), force-set
endTime to now and emit the STREAM_REASONING_DONE event. -/
def finish (cfg : RHConfig) (s : RHState) (now : Int) : RHState × Option Emission :=
  if s.startTime.isSome && s.endTime.isNone then
    let finalReasoning := if cfg.trimSpaces then s.reasoning.trim else s.reasoning
    let s' : RHState := { s with endTime := some now }
    (s', some ⟨finalReasoning, getDuration s'⟩)
  else (s, none)

/-- One streamed update cycle's inputs to a tracker session: the
accumulated reasoning text the streaming caller has written into
this.reasoning before calling process, whether the message body text
changed this cycle, and the cycle's current timestamp. -/
structure PInput where
  newReasoning : String
  mesChanged : Bool
  currentTime : Int
deriving DecidableEq, Repr

/-- The streaming caller's write of the accumulated reasoning into the
handler's public reasoning field before a process cycle. -/
def withReasoning (s : RHState) (r : String) : RHState :=
  { s with reasoning := r }

/-- Run a sequence of update cycles (each one: write the accumulated
reasoning, then call process), threading the state and counting how many
STREAM_REASONING_DONE emissions occurred. -/
def runProcesses (cfg : RHConfig) (s : RHState) : List PInput → RHState × Nat
  | [] => (s, 0)
  | i :: is =>
    ((runProcesses cfg
        (process cfg (withReasoning s i.newReasoning) i.mesChanged i.currentTime).1 is).1,
      (if (process cfg (withReasoning s i.newReasoning) i.mesChanged i.currentTime).2.isSome
        then 1 else 0)
        + (runProcesses cfg
            (process cfg (withReasoning s i.newReasoning) i.mesChanged i.currentTime).1 is).2)

/-- The state set up by the ReasoningHandler constructor: empty reasoning,
no start or end time; the owning message may carry a pre-existing stored
reasoning value. -/
def initState (r0 : Option String) : RHState :=
  ⟨"", none, none, r0⟩

/-- PromptReasoning.REASONING_PLACEHOLDER: the zero-width-space sentinel. -/
def REASONING_PLACEHOLDER : String := "\u200B"

/-- Settings consumed by PromptReasoning: power_user.reasoning
.add_to_prompts, .max_additions, and the three template parts, together
with the substituteParams macro expansion as an abstract transformer. -/
structure PRConfig where
  addToPrompts : Bool
  maxAdditions : Nat
  pfxS : String
  sfxS : String
  sepS : String
  subst : String → String

/-- PromptReasoning.isLimitReached: true when adding reasoning to prompts
is disabled or the addition counter has reached the configured maximum. -/
def isLimitReached (cfg : PRConfig) (counter : Nat) : Bool :=
  if !cfg.addToPrompts then true else decide (counter ≥ cfg.maxAdditions)

/-- PromptReasoning.addToMessage(content, reasoning, isPrefix): returns
the new message content and the new addition counter.  Non-prefix calls
return the content unchanged when additions are disabled or the counter
has reached the maximum; empty or placeholder reasoning is never
injected; otherwise the counter is incremented and the templated
combination is returned (prefix and reasoning only, when this is the
last-message prefix and the content is empty). -/
def addToMessage (cfg : PRConfig) (counter : Nat) (content reasoning : String)
    (isPfx : Bool) : String × Nat :=
  if !isPfx && (!cfg.addToPrompts || decide (counter ≥ cfg.maxAdditions)) then
    (content, counter)
  else if reasoning == "" || reasoning == REASONING_PLACEHOLDER then
    (content, counter)
  else
    let counter' := counter + 1
    let p := cfg.subst cfg.pfxS
    let sep := cfg.subst cfg.sepS
    let suf := cfg.subst cfg.sfxS
    if isPfx && content == "" then
      (p ++ reasoning, counter')
    else
      (p ++ reasoning ++ suf ++ sep ++ content, counter')

/-- The templated combination addToMessage produces in the general case:
macro-substituted prefix, the reasoning, macro-substituted suffix,
macro-substituted separator, then the message content. -/
def promptTemplate (cfg : PRConfig) (reasoning content : String) : String :=
  cfg.subst cfg.pfxS ++ reasoning ++ cfg.subst cfg.sfxS ++ cfg.subst cfg.sepS ++ content

end Reasoning

section StartsWithLemmas

open Reasoning

theorem startsWithL_iff (p s : List Char) :
    startsWithL p s = true ↔ ∃ t, s = p ++ t := by
  induction p generalizing s with
  | nil =>
    simp [startsWithL]
  | cons c cs ih =>
    cases s with
    | nil =>
      simp [startsWithL]
    | cons d ds =>
      simp only [startsWithL, Bool.and_eq_true, beq_iff_eq, ih]
      constructor
      · rintro ⟨rfl, t, rfl⟩
        exact ⟨t, rfl⟩
      · rintro ⟨t, h⟩
        injection h with h1 h2
        exact ⟨h1.symm, t, h2⟩

theorem findSub_eq_none_iff (pat s : List Char) :
    findSub pat s = none ↔ ∀ j, startsWithL pat (s.drop j) = false := by
  induction s with
  | nil =>
    simp only [findSub, List.drop_nil]
    by_cases h : startsWithL pat [] = true
    · simp [h]
    · simp [Bool.not_eq_true] at h
      simp [h]
  | cons c rest ih =>
    by_cases h : startsWithL pat (c :: rest) = true
    · simp only [findSub, h, if_true]
      constructor
      · intro hc; exact absurd hc (by simp)
      · intro hall
        have := hall 0
        simp [h] at this
    · have h' : startsWithL pat (c :: rest) = false := by
        simpa [Bool.not_eq_true] using h
      simp only [findSub, h', Bool.false_eq_true, if_false, Option.map_eq_none']
      rw [ih]
      constructor
      · intro hall j
        cases j with
        | zero => simpa using h'
        | succ j => simpa using hall j
      · intro hall j
        simpa using hall (j + 1)

theorem findSub_eq_some (pat s : List Char) (j : Nat)
    (h : findSub pat s = some j) :
    startsWithL pat (s.drop j) = true ∧
      ∀ k, k < j → startsWithL pat (s.drop k) = false := by
  induction s generalizing j with
  | nil =>
    simp only [findSub] at h
    by_cases hp : startsWithL pat [] = true
    · rw [if_pos hp] at h
      injection h with h
      subst h
      exact ⟨hp, fun k hk => absurd hk (by omega)⟩
    · rw [if_neg hp] at h
      exact absurd h (by simp)
  | cons c rest ih =>
    by_cases hp : startsWithL pat (c :: rest) = true
    · simp only [findSub, hp, if_true] at h
      injection h with h
      subst h
      exact ⟨hp, fun k hk => absurd hk (by omega)⟩
    · have hp' : startsWithL pat (c :: rest) = false := by
        simpa [Bool.not_eq_true] using hp
      simp only [findSub, hp', Bool.false_eq_true, if_false] at h
      cases hrec : findSub pat rest with
      | none => rw [hrec] at h; exact absurd h (by simp)
      | some j' =>
        rw [hrec] at h
        simp only [Option.map_some'] at h
        injection h with h
        obtain ⟨h1, h2⟩ := ih j' hrec
        subst h
        refine ⟨by simpa using h1, ?_⟩
        intro k hk
        cases k with
        | zero => simpa using hp'
        | succ k => simpa using h2 k (by omega)

end StartsWithLemmas

section MatcherLemmas

open Reasoning

theorem dropAdd (s : List Char) (m n k : Nat) (h : m + n = k) :
    (s.drop m).drop n = s.drop k := by
  subst h
  rw [List.drop_drop]

theorem tryHere_eq_none_iff (p suf s : List Char) :
    tryHere p suf s = none ↔ ¬ matchHere p suf s := by
  unfold tryHere matchHere
  by_cases hp : startsWithL p s = true
  · rw [if_pos hp]
    simp only [hp, true_and]
    cases hf : findSub suf (s.drop p.length) with
    | none =>
      rw [findSub_eq_none_iff] at hf
      constructor
      · rintro - ⟨j, hj⟩
        rw [hf j] at hj
        exact Bool.false_ne_true hj
      · intro _
        rfl
    | some j =>
      constructor
      · intro hc
        exact absurd hc (by simp)
      · intro hc
        exact absurd ⟨j, (findSub_eq_some suf _ j hf).1⟩ hc
  · have hp' : startsWithL p s = false := by simpa [Bool.not_eq_true] using hp
    rw [if_neg (by simp [hp'])]
    simp [hp']

theorem matchHere_of_tryHere_eq_some (p suf s : List Char) (x : List Char × List Char)
    (h : tryHere p suf s = some x) : matchHere p suf s := by
  by_contra hn
  rw [← tryHere_eq_none_iff, h] at hn
  exact Option.noConfusion hn

theorem matchHere_drop_iff (p suf s : List Char) (i : Nat) :
    matchHere p suf (s.drop i) ↔
      (occursAt p s i ∧ ∃ j, occursAt suf s j ∧ i + p.length ≤ j) := by
  unfold matchHere occursAt
  constructor
  · rintro ⟨hp, j, hj⟩
    refine ⟨hp, i + p.length + j, ?_, by omega⟩
    rw [dropAdd s i p.length (i + p.length) rfl,
      dropAdd s (i + p.length) j (i + p.length + j) rfl] at hj
    exact hj
  · rintro ⟨hp, j, hj, hle⟩
    refine ⟨hp, j - (i + p.length), ?_⟩
    rw [dropAdd s i p.length (i + p.length) rfl,
      dropAdd s (i + p.length) (j - (i + p.length)) j (by omega)]
    exact hj

theorem reSplit_eq_none_iff (p suf s : List Char) :
    reSplit p suf s = none ↔ ∀ i, ¬ matchHere p suf (s.drop i) := by
  induction s with
  | nil =>
    unfold reSplit
    rw [Option.map_eq_none', tryHere_eq_none_iff]
    constructor
    · intro h i
      simpa [List.drop_nil] using h
    · intro h
      simpa using h 0
  | cons c s ih =>
    constructor
    · intro h i
      cases i with
      | zero =>
        simp only [List.drop_zero]
        unfold reSplit at h
        cases ht : tryHere p suf (c :: s) with
        | some x =>
          rw [ht] at h
          exact absurd h (by simp)
        | none =>
          exact (tryHere_eq_none_iff p suf (c :: s)).mp ht
      | succ i =>
        unfold reSplit at h
        cases ht : tryHere p suf (c :: s) with
        | some x =>
          rw [ht] at h
          exact absurd h (by simp)
        | none =>
          rw [ht, Option.map_eq_none'] at h
          have := (ih.mp h) i
          simpa [List.drop_succ_cons] using this
    · intro h
      unfold reSplit
      cases ht : tryHere p suf (c :: s) with
      | some x =>
        exact absurd (matchHere_of_tryHere_eq_some p suf (c :: s) x ht)
          (by simpa using h 0)
      | none =>
        rw [Option.map_eq_none']
        apply ih.mpr
        intro i
        simpa [List.drop_succ_cons] using h (i + 1)

theorem reSplit_eq_none_iff_not_matchExists (p suf s : List Char) :
    reSplit p suf s = none ↔ ¬ matchExists p suf s := by
  rw [reSplit_eq_none_iff]
  unfold matchExists
  constructor
  · rintro h ⟨i, j, hp, hs, hle⟩
    exact h i ((matchHere_drop_iff p suf s i).mpr ⟨hp, j, hs, hle⟩)
  · intro h i hm
    obtain ⟨hp, j, hs, hle⟩ := (matchHere_drop_iff p suf s i).mp hm
    exact h ⟨i, j, hp, hs, hle⟩

theorem tryHere_sound (p suf s r a : List Char) (h : tryHere p suf s = some (r, a)) :
    s = p ++ r ++ suf ++ a ∧
      (∀ k, k < r.length → startsWithL suf ((s.drop p.length).drop k) = false) := by
  unfold tryHere at h
  by_cases hp : startsWithL p s = true
  · rw [if_pos hp] at h
    cases hf : findSub suf (s.drop p.length) with
    | none =>
      rw [hf] at h
      exact absurd h (by simp)
    | some j =>
      rw [hf] at h
      injection h with h
      rw [Prod.mk.injEq] at h
      obtain ⟨hr, ha⟩ := h
      obtain ⟨hsj, hmin⟩ := findSub_eq_some suf (s.drop p.length) j hf
      obtain ⟨t, hst⟩ := (startsWithL_iff p s).mp hp
      have hrest : s.drop p.length = t := by
        rw [hst, List.drop_left]
      obtain ⟨u, hu⟩ := (startsWithL_iff suf ((s.drop p.length).drop j)).mp hsj
      constructor
      · have hau : u = a := by
          rw [← ha, ← dropAdd (s.drop p.length) j suf.length (j + suf.length) rfl,
            hu, List.drop_left]
        have hsplit : s.drop p.length =
            (s.drop p.length).take j ++ ((s.drop p.length).drop j) :=
          (List.take_append_drop j (s.drop p.length)).symm
        rw [hu, hau, hr] at hsplit
        rw [hrest] at hsplit
        rw [hst, hsplit]
        simp [List.append_assoc]
      · intro k hk
        apply hmin
        have hle : r.length ≤ j := by
          rw [← hr]
          simp [Nat.min_le_left]
        omega
  · rw [if_neg (by simpa [Bool.not_eq_true] using hp)] at h
    exact absurd h (by simp)

theorem reSplit_sound (p suf s b r a : List Char)
    (h : reSplit p suf s = some (b, r, a)) :
    s = b ++ p ++ r ++ suf ++ a ∧
      (∀ i, i < b.length → ¬ matchHere p suf (s.drop i)) ∧
      (∀ k, k < r.length →
        startsWithL suf ((s.drop (b.length + p.length)).drop k) = false) := by
  induction s generalizing b r a with
  | nil =>
    unfold reSplit at h
    cases ht : tryHere p suf [] with
    | none =>
      rw [ht] at h
      exact absurd h (by simp)
    | some x =>
      obtain ⟨x1, x2⟩ := x
      rw [ht] at h
      simp only [Option.map_some'] at h
      injection h with h
      rw [Prod.mk.injEq] at h
      obtain ⟨hb, h2⟩ := h
      rw [Prod.mk.injEq] at h2
      obtain ⟨hr, ha⟩ := h2
      subst hb
      subst hr
      subst ha
      obtain ⟨hs, hmin⟩ := tryHere_sound p suf [] x1 x2 ht
      refine ⟨by simpa using hs, ?_, ?_⟩
      · intro i hi
        simp at hi
      · simpa using hmin
  | cons c s ih =>
    unfold reSplit at h
    cases ht : tryHere p suf (c :: s) with
    | some x =>
      obtain ⟨x1, x2⟩ := x
      rw [ht] at h
      injection h with h
      rw [Prod.mk.injEq] at h
      obtain ⟨hb, h2⟩ := h
      rw [Prod.mk.injEq] at h2
      obtain ⟨hr, ha⟩ := h2
      subst hb
      subst hr
      subst ha
      obtain ⟨hs, hmin⟩ := tryHere_sound p suf (c :: s) x1 x2 ht
      refine ⟨by simpa using hs, ?_, ?_⟩
      · intro i hi
        simp at hi
      · simpa using hmin
    | none =>
      rw [ht] at h
      cases hrec : reSplit p suf s with
      | none =>
        rw [hrec] at h
        exact absurd h (by simp)
      | some y =>
        obtain ⟨b', y2⟩ := y
        obtain ⟨r', a'⟩ := y2
        rw [hrec] at h
        simp only [Option.map_some'] at h
        injection h with h
        rw [Prod.mk.injEq] at h
        obtain ⟨hb, h2⟩ := h
        rw [Prod.mk.injEq] at h2
        obtain ⟨hr, ha⟩ := h2
        subst hb
        subst hr
        subst ha
        obtain ⟨hs, hfirst, hmin⟩ := ih b' r' a' hrec
        refine ⟨?_, ?_, ?_⟩
        · rw [show (c :: b') ++ p ++ r' ++ suf ++ a'
              = c :: (b' ++ p ++ r' ++ suf ++ a') from by simp, ← hs]
        · intro i hi
          cases i with
          | zero =>
            simp only [List.drop_zero]
            exact (tryHere_eq_none_iff p suf (c :: s)).mp ht
          | succ i =>
            rw [List.drop_succ_cons]
            exact hfirst i (by simpa using hi)
        · intro k hk
          have hdrop : (c :: s).drop ((c :: b').length + p.length)
              = s.drop (b'.length + p.length) := by
            rw [show (c :: b').length + p.length = (b'.length + p.length) + 1 from by
              simp [List.length_cons]; omega]
            rw [List.drop_succ_cons]
          rw [hdrop]
          exact hmin k hk

theorem parse_of_reSplit_none (pfx sfx : List Char) (ts : Bool) (s : List Char)
    (h1 : pfx ≠ []) (h2 : sfx ≠ []) (h : reSplit pfx sfx s = none) :
    parseReasoningFromString pfx sfx ts s = some ⟨[], s⟩ := by
  unfold parseReasoningFromString
  rw [if_neg (by tauto), h]

theorem parse_of_reSplit_some (pfx sfx : List Char) (s b r a : List Char)
    (h1 : pfx ≠ []) (h2 : sfx ≠ []) (h : reSplit pfx sfx s = some (b, r, a)) :
    parseReasoningFromString pfx sfx false s = some ⟨r, b ++ a⟩ ∧
      parseReasoningFromString pfx sfx true s
        = some ⟨trimChars r, trimChars (b ++ a)⟩ := by
  constructor
  · unfold parseReasoningFromString
    rw [if_neg (by tauto), h]
    simp
  · unfold parseReasoningFromString
    rw [if_neg (by tauto), h]
    simp

end MatcherLemmas

section TrackerLemmas

open Reasoning

theorem startTimeAfter_of_isSome (cfg : RHConfig) (s : RHState)
    (h : s.startTime.isSome = true) : startTimeAfter cfg s = s.startTime := by
  unfold startTimeAfter
  cases hs : s.startTime with
  | none => rw [hs] at h; simp at h
  | some v => simp [hs]

theorem process_startTime_mono (cfg : RHConfig) (s : RHState) (mc : Bool) (t : Int)
    (h : s.startTime.isSome = true) :
    (process cfg s mc t).1.startTime = s.startTime := by
  unfold process
  by_cases h0 : (s.reasoning == "" && !cfg.isHidden) = true
  · rw [if_pos h0]
  · rw [if_neg h0]
    by_cases hc : endCondition cfg s mc = true
    · rw [if_pos hc]
      exact startTimeAfter_of_isSome cfg s h
    · rw [if_neg hc]
      exact startTimeAfter_of_isSome cfg s h

theorem process_of_endTime_isSome (cfg : RHConfig) (s : RHState) (mc : Bool) (t : Int)
    (h : s.endTime.isSome = true) :
    (process cfg s mc t).1.endTime = s.endTime ∧ (process cfg s mc t).2 = none := by
  unfold process
  by_cases h0 : (s.reasoning == "" && !cfg.isHidden) = true
  · rw [if_pos h0]
    exact ⟨rfl, rfl⟩
  · rw [if_neg h0]
    have hc : endCondition cfg s mc = false := by
      unfold endCondition
      have hn : s.endTime.isNone = false := by
        cases hs : s.endTime with
        | none => rw [hs] at h; simp at h
        | some v => simp
      simp [hn]
    rw [if_neg (by simp [hc])]
    exact ⟨rfl, rfl⟩

theorem process_emit_iff (cfg : RHConfig) (s : RHState) (mc : Bool) (t : Int)
    (h : s.endTime = none) :
    ((process cfg s mc t).2.isSome = (process cfg s mc t).1.endTime.isSome) ∧
      ((process cfg s mc t).1.endTime.isSome = true →
        (process cfg s mc t).1.startTime.isSome = true) := by
  unfold process
  by_cases h0 : (s.reasoning == "" && !cfg.isHidden) = true
  · rw [if_pos h0]
    simp [h]
  · rw [if_neg h0]
    by_cases hc : endCondition cfg s mc = true
    · rw [if_pos hc]
      refine ⟨by simp, ?_⟩
      intro _
      unfold endCondition at hc
      simp only [Bool.and_eq_true] at hc
      exact hc.1.2
    · rw [if_neg hc]
      simp [h]

theorem finish_startTime (cfg : RHConfig) (s : RHState) (tf : Int) :
    (finish cfg s tf).1.startTime = s.startTime := by
  unfold finish
  by_cases hc : (s.startTime.isSome && s.endTime.isNone) = true
  · rw [if_pos hc]
  · rw [if_neg hc]

theorem finish_of_pending (cfg : RHConfig) (s : RHState) (tf : Int)
    (h1 : s.startTime.isSome = true) (h2 : s.endTime = none) :
    (finish cfg s tf).1 = { s with endTime := some tf } ∧
      (finish cfg s tf).2
        = some ⟨if cfg.trimSpaces then s.reasoning.trim else s.reasoning,
            getDuration { s with endTime := some tf }⟩ := by
  unfold finish
  rw [if_pos (by simp [h1, h2])]
  exact ⟨rfl, rfl⟩

theorem finish_of_not_pending (cfg : RHConfig) (s : RHState) (tf : Int)
    (h : ¬(s.startTime.isSome = true ∧ s.endTime = none)) :
    finish cfg s tf = (s, none) := by
  unfold finish
  rw [if_neg ?hc]
  case hc =>
    intro hc
    simp only [Bool.and_eq_true, Option.isNone_iff_eq_none] at hc
    exact h hc

theorem runProcesses_cons_fst (cfg : RHConfig) (s : RHState) (i : PInput)
    (is : List PInput) :
    (runProcesses cfg s (i :: is)).1
      = (runProcesses cfg
          (process cfg (withReasoning s i.newReasoning) i.mesChanged i.currentTime).1
          is).1 := rfl

theorem runProcesses_cons_snd (cfg : RHConfig) (s : RHState) (i : PInput)
    (is : List PInput) :
    (runProcesses cfg s (i :: is)).2
      = (if (process cfg (withReasoning s i.newReasoning) i.mesChanged i.currentTime).2.isSome
          then 1 else 0)
        + (runProcesses cfg
            (process cfg (withReasoning s i.newReasoning) i.mesChanged i.currentTime).1
            is).2 := rfl

theorem runProcesses_preserves_times (cfg : RHConfig) (l : List PInput) :
    ∀ s : RHState, s.startTime.isSome = true → s.endTime.isSome = true →
      (runProcesses cfg s l).1.startTime = s.startTime ∧
        (runProcesses cfg s l).1.endTime = s.endTime ∧
        (runProcesses cfg s l).2 = 0 := by
  induction l with
  | nil =>
    intro s h1 h2
    exact ⟨rfl, rfl, rfl⟩
  | cons i is ih =>
    intro s h1 h2
    have hw1 : (withReasoning s i.newReasoning).startTime = s.startTime := rfl
    have hw2 : (withReasoning s i.newReasoning).endTime = s.endTime := rfl
    obtain ⟨he, hemit⟩ := process_of_endTime_isSome cfg (withReasoning s i.newReasoning)
      i.mesChanged i.currentTime (by rw [hw2]; exact h2)
    have hst := process_startTime_mono cfg (withReasoning s i.newReasoning)
      i.mesChanged i.currentTime (by rw [hw1]; exact h1)
    rw [hw1] at hst
    rw [hw2] at he
    obtain ⟨ih1, ih2, ih3⟩ := ih
      (process cfg (withReasoning s i.newReasoning) i.mesChanged i.currentTime).1
      (by rw [hst]; exact h1) (by rw [he]; exact h2)
    rw [runProcesses_cons_fst, runProcesses_cons_snd]
    refine ⟨by rw [ih1, hst], by rw [ih2, he], ?_⟩
    rw [hemit, ih3, if_neg (show ¬((none : Option Emission).isSome = true) by simp)]

theorem runProcesses_emits (cfg : RHConfig) (l : List PInput) :
    ∀ s : RHState, (s.endTime.isSome = true → s.startTime.isSome = true) →
      ((runProcesses cfg s l).1.endTime.isSome = true →
        (runProcesses cfg s l).1.startTime.isSome = true) ∧
      ((if s.endTime.isSome = true then 1 else 0) + (runProcesses cfg s l).2
        = if (runProcesses cfg s l).1.endTime.isSome = true then 1 else 0) := by
  induction l with
  | nil =>
    intro s hinv
    refine ⟨hinv, ?_⟩
    rw [show (runProcesses cfg s []).2 = 0 from rfl,
      show (runProcesses cfg s []).1 = s from rfl, Nat.add_zero]
  | cons i is ih =>
    intro s hinv
    have hw1 : (withReasoning s i.newReasoning).startTime = s.startTime := rfl
    have hw2 : (withReasoning s i.newReasoning).endTime = s.endTime := rfl
    by_cases h2 : s.endTime.isSome = true
    · obtain ⟨he, hemit⟩ := process_of_endTime_isSome cfg (withReasoning s i.newReasoning)
        i.mesChanged i.currentTime (by rw [hw2]; exact h2)
      rw [hw2] at he
      have hst := process_startTime_mono cfg (withReasoning s i.newReasoning)
        i.mesChanged i.currentTime (by rw [hw1]; exact hinv h2)
      rw [hw1] at hst
      have hinv' : (process cfg (withReasoning s i.newReasoning)
            i.mesChanged i.currentTime).1.endTime.isSome = true →
          (process cfg (withReasoning s i.newReasoning)
            i.mesChanged i.currentTime).1.startTime.isSome = true := by
        intro _
        rw [hst]
        exact hinv h2
      obtain ⟨ihinv, ihcount⟩ := ih
        (process cfg (withReasoning s i.newReasoning) i.mesChanged i.currentTime).1 hinv'
      rw [runProcesses_cons_fst, runProcesses_cons_snd]
      refine ⟨ihinv, ?_⟩
      rw [hemit, if_neg (show ¬((none : Option Emission).isSome = true) by simp),
        if_pos h2]
      rw [he, if_pos h2] at ihcount
      rw [Nat.zero_add]
      exact ihcount
    · have hen : s.endTime = none := by
        cases hs : s.endTime with
        | none => rfl
        | some v => rw [hs] at h2; simp at h2
      obtain ⟨hiff, himp⟩ := process_emit_iff cfg (withReasoning s i.newReasoning)
        i.mesChanged i.currentTime (by rw [hw2, hen])
      obtain ⟨ihinv, ihcount⟩ := ih
        (process cfg (withReasoning s i.newReasoning) i.mesChanged i.currentTime).1 himp
      rw [runProcesses_cons_fst, runProcesses_cons_snd]
      refine ⟨ihinv, ?_⟩
      rw [if_neg h2, hiff, Nat.zero_add]
      exact ihcount

end TrackerLemmas

section ParserClaims

open Reasoning

/-- C5: for every input string in which the configured prefix followed
(possibly across line breaks) by the configured suffix does not occur,
parseReasoningFromString returns a result whose content equals the input
string unchanged and whose reasoning is the empty string, and no trimming
is applied even when trim-spaces is enabled. -/
theorem C5_no_match_content_unchanged (pfx sfx : List Char) (ts : Bool)
    (s : List Char) (h1 : pfx ≠ []) (h2 : sfx ≠ [])
    (hnm : ¬ matchExists pfx sfx s) :
    parseReasoningFromString pfx sfx ts s = some ⟨[], s⟩ :=
  parse_of_reSplit_none pfx sfx ts s h1 h2
    ((reSplit_eq_none_iff_not_matchExists pfx sfx s).mpr hnm)

/-- Witness for C5 at a concrete input: parsing a string without the
configured markers, with trim-spaces enabled, returns the input with its
surrounding whitespace intact and an empty reasoning. -/
theorem C5_no_match_content_unchanged_witness :
    ("PRE".toList ≠ ([] : List Char)) ∧ ("SUF".toList ≠ ([] : List Char)) ∧
      ¬ matchExists "PRE".toList "SUF".toList "  hello  ".toList ∧
      parseReasoningFromString "PRE".toList "SUF".toList true "  hello  ".toList
        = some ⟨[], "  hello  ".toList⟩ := by
  have hnm : ¬ matchExists "PRE".toList "SUF".toList "  hello  ".toList :=
    (reSplit_eq_none_iff_not_matchExists "PRE".toList "SUF".toList
      "  hello  ".toList).mp (by decide)
  exact ⟨by decide, by decide, hnm,
    C5_no_match_content_unchanged "PRE".toList "SUF".toList true "  hello  ".toList
      (by decide) (by decide) hnm⟩

/-- C6: when parseReasoningFromString finds a match, the input splits as
before ++ prefix ++ captured ++ suffix ++ after; the whole span is removed
so content is before ++ after and the captured group is the reasoning;
with trim-spaces on both parts are additionally trimmed; the match is the
first possible one (no prefix-with-later-suffix occurrence starts earlier)
and non-greedy (no suffix occurrence inside the captured span). -/
theorem C6_match_extracts_first_nongreedy_span (pfx sfx s b r a : List Char)
    (h1 : pfx ≠ []) (h2 : sfx ≠ []) (h : reSplit pfx sfx s = some (b, r, a)) :
    s = b ++ pfx ++ r ++ sfx ++ a ∧
      parseReasoningFromString pfx sfx false s = some ⟨r, b ++ a⟩ ∧
      parseReasoningFromString pfx sfx true s
        = some ⟨trimChars r, trimChars (b ++ a)⟩ ∧
      (∀ i, i < b.length →
        ¬ (occursAt pfx s i ∧ ∃ j, occursAt sfx s j ∧ i + pfx.length ≤ j)) ∧
      (∀ j, b.length + pfx.length ≤ j → j < b.length + pfx.length + r.length →
        ¬ occursAt sfx s j) := by
  obtain ⟨hs, hfirst, hmin⟩ := reSplit_sound pfx sfx s b r a h
  obtain ⟨hoff, hon⟩ := parse_of_reSplit_some pfx sfx s b r a h1 h2 h
  refine ⟨hs, hoff, hon, ?_, ?_⟩
  · intro i hi hex
    exact hfirst i hi ((matchHere_drop_iff pfx sfx s i).mpr hex)
  · intro j hj1 hj2 hocc
    have hk := hmin (j - (b.length + pfx.length)) (by omega)
    rw [dropAdd s (b.length + pfx.length) (j - (b.length + pfx.length)) j
      (by omega)] at hk
    unfold occursAt at hocc
    rw [hocc] at hk
    exact Bool.noConfusion hk

/-- Witness for C6: the spec's concrete example.  Parsing
"PRE abc SUF rest" with prefix "PRE" and suffix "SUF" yields reasoning
" abc " and content " rest" with trim-spaces off, and reasoning "abc" and
content "rest" with trim-spaces on. -/
theorem C6_match_extracts_first_nongreedy_span_witness :
    reSplit "PRE".toList "SUF".toList "PRE abc SUF rest".toList
        = some ([], " abc ".toList, " rest".toList) ∧
      parseReasoningFromString "PRE".toList "SUF".toList false
          "PRE abc SUF rest".toList = some ⟨" abc ".toList, " rest".toList⟩ ∧
      parseReasoningFromString "PRE".toList "SUF".toList true
          "PRE abc SUF rest".toList = some ⟨"abc".toList, "rest".toList⟩ := by
  have h := C6_match_extracts_first_nongreedy_span "PRE".toList "SUF".toList
    "PRE abc SUF rest".toList [] " abc ".toList " rest".toList
    (by decide) (by decide) (by decide)
  exact ⟨by decide, h.2.1.trans (by decide), h.2.2.1.trans (by decide)⟩

/-- C7: parseReasoningFromString returns none exactly when the configured
prefix or suffix is empty; in every other case it returns a result (the
function is total, so construction errors never propagate to the caller;
the configured markers are matched literally, modelling the regex-escape
of the source). -/
theorem C7_parse_none_iff_missing_config (pfx sfx : List Char) (ts : Bool)
    (s : List Char) :
    parseReasoningFromString pfx sfx ts s = none ↔ (pfx = [] ∨ sfx = []) := by
  unfold parseReasoningFromString
  by_cases h : pfx = [] ∨ sfx = []
  · simp [h]
  · rw [if_neg h]
    constructor
    · intro hc
      exfalso
      cases hr : reSplit pfx sfx s with
      | none =>
        rw [hr] at hc
        exact Option.noConfusion hc
      | some x =>
        obtain ⟨b, r, a⟩ := x
        rw [hr] at hc
        cases ts with
        | false => simp at hc
        | true => simp at hc
    · intro hc
      exact absurd hc h

/-- C8: parsing is idempotent on extracted content: if a parse produced a
content string in which no prefix-then-suffix span remains, parsing that
content again returns it unchanged with an empty reasoning. -/
theorem C8_reparse_extracted_content_identity (pfx sfx : List Char) (ts : Bool)
    (s r c : List Char) (h1 : pfx ≠ []) (h2 : sfx ≠ [])
    (_hp : parseReasoningFromString pfx sfx ts s = some ⟨r, c⟩)
    (hnm : ¬ matchExists pfx sfx c) :
    parseReasoningFromString pfx sfx ts c = some ⟨[], c⟩ :=
  parse_of_reSplit_none pfx sfx ts c h1 h2
    ((reSplit_eq_none_iff_not_matchExists pfx sfx c).mpr hnm)

/-- Witness for C8: parsing "PRE x SUF tail" extracts content " tail";
re-parsing that content returns it unchanged with empty reasoning. -/
theorem C8_reparse_extracted_content_identity_witness :
    parseReasoningFromString "PRE".toList "SUF".toList false
        "PRE x SUF tail".toList = some ⟨" x ".toList, " tail".toList⟩ ∧
      ¬ matchExists "PRE".toList "SUF".toList " tail".toList ∧
      parseReasoningFromString "PRE".toList "SUF".toList false " tail".toList
        = some ⟨[], " tail".toList⟩ := by
  have hnm : ¬ matchExists "PRE".toList "SUF".toList " tail".toList :=
    (reSplit_eq_none_iff_not_matchExists "PRE".toList "SUF".toList
      " tail".toList).mp (by decide)
  exact ⟨by decide, hnm,
    C8_reparse_extracted_content_identity "PRE".toList "SUF".toList false
      "PRE x SUF tail".toList " x ".toList " tail".toList
      (by decide) (by decide) (by decide) hnm⟩

end ParserClaims

section TrackerClaims

open Reasoning

/-- Counterexample to C1 as stated: in a cycle where the message body did
NOT change (mesChanged = false), with startTime set, endTime unset, a
non-hidden model and unchanged reasoning text, process leaves endTime
unset and emits nothing — the code's end condition requires the message
body to HAVE changed this cycle. -/
theorem C1_stable_cycle_counterexample :
    reasoningChangedOf ⟨false, false, id, 0⟩ ⟨"r", some 0, none, some "r"⟩ = false ∧
      (process ⟨false, false, id, 0⟩ ⟨"r", some 0, none, some "r"⟩ false 5).1.endTime
        = none ∧
      (process ⟨false, false, id, 0⟩ ⟨"r", some 0, none, some "r"⟩ false 5).2 = none := by
  decide

/-- C1 (amended): for every update cycle in which the message body DID
change this cycle, startTime is set, endTime is not set, either the model
is hidden-reasoning or the accumulated reasoning text did not change this
cycle, and the cycle is not an early return (the handler has reasoning
text or the model is hidden), process sets endTime to the cycle's current
timestamp and emits the reasoning-finished notification with the final
reasoning text and the duration-resolver value. -/
theorem C1_process_finalizes_on_message_change (cfg : RHConfig) (s : RHState)
    (t : Int) (hguard : s.reasoning ≠ "" ∨ cfg.isHidden = true)
    (hst : s.startTime.isSome = true) (hen : s.endTime = none)
    (hrc : cfg.isHidden = true ∨ reasoningChangedOf cfg s = false) :
    (process cfg s true t).1.endTime = some t ∧
      (process cfg s true t).2
        = some ⟨finalReasoningOf cfg s, getDuration (process cfg s true t).1⟩ := by
  have h0 : ¬((s.reasoning == "" && !cfg.isHidden) = true) := by
    rcases hguard with h | h
    · simp [h]
    · simp [h]
  have hc : endCondition cfg s true = true := by
    unfold endCondition
    have ha : (cfg.isHidden || !reasoningChangedOf cfg s) = true := by
      rcases hrc with h | h
      · simp [h]
      · simp [h]
    have hb : (startTimeAfter cfg s).isSome = true := by
      rw [startTimeAfter_of_isSome cfg s hst]
      exact hst
    have hd : s.endTime.isNone = true := by simp [hen]
    simp [ha, hb, hd]
  unfold process
  rw [if_neg h0, if_pos hc]
  exact ⟨rfl, rfl⟩

/-- Witness for C1 (amended) at a concrete session state: with unchanged
reasoning "r" already stored, a cycle with a changed message body at time
7 sets endTime to 7 and emits the notification. -/
theorem C1_process_finalizes_on_message_change_witness :
    ((⟨"r", some 0, none, some "r"⟩ : RHState).startTime.isSome = true) ∧
      ((⟨"r", some 0, none, some "r"⟩ : RHState).endTime = none) ∧
      reasoningChangedOf ⟨false, false, id, 0⟩ ⟨"r", some 0, none, some "r"⟩ = false ∧
      (process ⟨false, false, id, 0⟩ ⟨"r", some 0, none, some "r"⟩ true 7).1.endTime
        = some 7 ∧
      (process ⟨false, false, id, 0⟩ ⟨"r", some 0, none, some "r"⟩ true 7).2
        = some ⟨finalReasoningOf ⟨false, false, id, 0⟩ ⟨"r", some 0, none, some "r"⟩,
            getDuration
              (process ⟨false, false, id, 0⟩ ⟨"r", some 0, none, some "r"⟩ true 7).1⟩ := by
  have h := C1_process_finalizes_on_message_change ⟨false, false, id, 0⟩
    ⟨"r", some 0, none, some "r"⟩ 7 (Or.inl (by decide)) (by decide) rfl
    (Or.inr (by decide))
  exact ⟨by decide, rfl, by decide, h.1, h.2⟩

/-- C3: for every update cycle in which the accumulated reasoning text is
non-empty, differs (as this cycle's finalReasoning) from the value
previously stored on the message, and startTime is not yet set, process
sets startTime to the session's initial generation time (the timeStarted
passed to the constructor), not to the cycle's current timestamp. -/
theorem C3_startTime_is_initial_generation_time (cfg : RHConfig) (s : RHState)
    (mc : Bool) (t : Int) (hr : s.reasoning ≠ "")
    (hch : reasoningChangedOf cfg s = true) (hst : s.startTime = none) :
    (process cfg s mc t).1.startTime = some cfg.initialTime := by
  have h0 : ¬((s.reasoning == "" && !cfg.isHidden) = true) := by simp [hr]
  have hsta : startTimeAfter cfg s = some cfg.initialTime := by
    unfold startTimeAfter
    rw [if_pos (by simp [hch, hst])]
  unfold process
  rw [if_neg h0]
  by_cases hc : endCondition cfg s mc = true
  · rw [if_pos hc]
    exact hsta
  · rw [if_neg hc]
    exact hsta

/-- Witness for C3: a first cycle with fresh reasoning "r" at current time
99 records startTime = 5, the initial generation time, not 99. -/
theorem C3_startTime_is_initial_generation_time_witness :
    (("r" : String) ≠ "") ∧
      reasoningChangedOf ⟨false, false, id, 5⟩ ⟨"r", none, none, none⟩ = true ∧
      ((⟨"r", none, none, none⟩ : RHState).startTime = none) ∧
      (process ⟨false, false, id, 5⟩ ⟨"r", none, none, none⟩ false 99).1.startTime
        = some 5 := by
  exact ⟨by decide, by decide, rfl,
    C3_startTime_is_initial_generation_time ⟨false, false, id, 5⟩
      ⟨"r", none, none, none⟩ false 99 (by decide) (by decide) rfl⟩

/-- C4: once endTime is set on a tracker session (startTime is then set
too), no sequence of further process cycles followed by a finish call
changes startTime or endTime, and getDuration is therefore stable. -/
theorem C4_timing_fields_stable_after_end (cfg : RHConfig) (s : RHState)
    (l : List PInput) (tf : Int) (hst : s.startTime.isSome = true)
    (hen : s.endTime.isSome = true) :
    (finish cfg (runProcesses cfg s l).1 tf).1.startTime = s.startTime ∧
      (finish cfg (runProcesses cfg s l).1 tf).1.endTime = s.endTime ∧
      getDuration (finish cfg (runProcesses cfg s l).1 tf).1 = getDuration s := by
  obtain ⟨h1, h2, h3⟩ := runProcesses_preserves_times cfg l s hst hen
  have hfin : finish cfg (runProcesses cfg s l).1 tf
      = ((runProcesses cfg s l).1, none) := by
    apply finish_of_not_pending
    rintro ⟨-, hfe⟩
    rw [h2] at hfe
    rw [hfe] at hen
    simp at hen
  rw [hfin]
  refine ⟨h1, h2, ?_⟩
  show getDuration (runProcesses cfg s l).1 = getDuration s
  unfold getDuration
  rw [h1, h2]

/-- Witness for C4: a finalized session (start 2, end 9) run through one
more cycle and a finish call keeps startTime = 2, endTime = 9 and
duration 7. -/
theorem C4_timing_fields_stable_after_end_witness :
    ((⟨"r", some 2, some 9, some "r"⟩ : RHState).startTime.isSome = true) ∧
      ((⟨"r", some 2, some 9, some "r"⟩ : RHState).endTime.isSome = true) ∧
      (finish ⟨false, false, id, 0⟩
          (runProcesses ⟨false, false, id, 0⟩ ⟨"r", some 2, some 9, some "r"⟩
            [⟨"rrr", true, 11⟩]).1 20).1.startTime = some 2 ∧
      (finish ⟨false, false, id, 0⟩
          (runProcesses ⟨false, false, id, 0⟩ ⟨"r", some 2, some 9, some "r"⟩
            [⟨"rrr", true, 11⟩]).1 20).1.endTime = some 9 ∧
      getDuration (finish ⟨false, false, id, 0⟩
          (runProcesses ⟨false, false, id, 0⟩ ⟨"r", some 2, some 9, some "r"⟩
            [⟨"rrr", true, 11⟩]).1 20).1 = some 7 := by
  have h := C4_timing_fields_stable_after_end ⟨false, false, id, 0⟩
    ⟨"r", some 2, some 9, some "r"⟩ [⟨"rrr", true, 11⟩] 20 (by decide) (by decide)
  exact ⟨by decide, by decide, h.1, h.2.1, h.2.2.trans (by decide)⟩

/-- C2: over any session (any interleaving of update cycles followed by a
final finish call), the reasoning-finished notification is emitted exactly
once when startTime became set and never otherwise; in particular if no
process cycle set endTime, finish sets endTime to the final time and
emits; if a cycle already emitted, finish emits nothing; and a session
whose startTime was never set emits nothing at all. -/
theorem C2_reasoning_finished_exactly_once (cfg : RHConfig) (r0 : Option String)
    (l : List PInput) (tf : Int) :
    ((runProcesses cfg (initState r0) l).2
        + (if (finish cfg (runProcesses cfg (initState r0) l).1 tf).2.isSome = true
            then 1 else 0)
      = if (finish cfg (runProcesses cfg (initState r0) l).1 tf).1.startTime.isSome
            = true
          then 1 else 0) ∧
      ((runProcesses cfg (initState r0) l).1.startTime.isSome = true →
        (runProcesses cfg (initState r0) l).1.endTime = none →
        (finish cfg (runProcesses cfg (initState r0) l).1 tf).1.endTime = some tf ∧
          (finish cfg (runProcesses cfg (initState r0) l).1 tf).2.isSome = true) ∧
      ((runProcesses cfg (initState r0) l).1.endTime.isSome = true →
        (finish cfg (runProcesses cfg (initState r0) l).1 tf).2 = none) ∧
      ((runProcesses cfg (initState r0) l).1.startTime = none →
        (runProcesses cfg (initState r0) l).2 = 0 ∧
          (finish cfg (runProcesses cfg (initState r0) l).1 tf).2 = none) := by
  obtain ⟨hinv, hcount⟩ := runProcesses_emits cfg l (initState r0)
    (by intro h; simp [initState] at h)
  rw [show (initState r0).endTime = (none : Option Int) from rfl,
    if_neg (show ¬((none : Option Int).isSome = true) by simp), Nat.zero_add] at hcount
  rw [finish_startTime]
  by_cases he : (runProcesses cfg (initState r0) l).1.endTime.isSome = true
  · have hsst := hinv he
    have hfin := finish_of_not_pending cfg (runProcesses cfg (initState r0) l).1 tf ?hnp
    case hnp =>
      rintro ⟨-, hnone⟩
      rw [hnone] at he
      simp at he
    refine ⟨?_, ?_, ?_, ?_⟩
    · rw [hfin]
      show (runProcesses cfg (initState r0) l).2
          + (if (none : Option Emission).isSome = true then 1 else 0)
        = if (runProcesses cfg (initState r0) l).1.startTime.isSome = true then 1 else 0
      rw [if_neg (show ¬((none : Option Emission).isSome = true) by simp),
        Nat.add_zero, if_pos hsst, hcount, if_pos he]
    · intro _ hnone
      rw [hnone] at he
      simp at he
    · intro _
      rw [hfin]
    · intro hnone
      exfalso
      rw [hnone] at hsst
      simp at hsst
  · have hen : (runProcesses cfg (initState r0) l).1.endTime = none := by
      cases hs : (runProcesses cfg (initState r0) l).1.endTime with
      | none => rfl
      | some v =>
        rw [hs] at he
        simp at he
    have hn0 : (runProcesses cfg (initState r0) l).2 = 0 := by
      rw [hcount, if_neg he]
    by_cases hsst : (runProcesses cfg (initState r0) l).1.startTime.isSome = true
    · obtain ⟨hf1, hf2⟩ := finish_of_pending cfg (runProcesses cfg (initState r0) l).1
        tf hsst hen
      refine ⟨?_, ?_, ?_, ?_⟩
      · rw [hn0, hf2, Nat.zero_add, if_pos hsst,
          if_pos (show (some (⟨if cfg.trimSpaces
              then (runProcesses cfg (initState r0) l).1.reasoning.trim
              else (runProcesses cfg (initState r0) l).1.reasoning,
            getDuration { (runProcesses cfg (initState r0) l).1
              with endTime := some tf }⟩ : Emission) : Option Emission).isSome
            = true by simp)]
      · intro _ _
        refine ⟨?_, ?_⟩
        · rw [hf1]
        · rw [hf2]
          simp
      · intro hcontra
        rw [hen] at hcontra
        simp at hcontra
      · intro hnone
        exfalso
        rw [hnone] at hsst
        simp at hsst
    · have hfin := finish_of_not_pending cfg (runProcesses cfg (initState r0) l).1 tf
        (by rintro ⟨hs1, -⟩; exact hsst hs1)
      refine ⟨?_, ?_, ?_, ?_⟩
      · rw [hn0, hfin]
        show 0 + (if (none : Option Emission).isSome = true then 1 else 0)
          = if (runProcesses cfg (initState r0) l).1.startTime.isSome = true
              then 1 else 0
        rw [if_neg (show ¬((none : Option Emission).isSome = true) by simp),
          if_neg hsst]
      · intro hcontra _
        exact absurd hcontra hsst
      · intro hcontra
        rw [hen] at hcontra
        simp at hcontra
      · intro _
        exact ⟨hn0, by rw [hfin]⟩

/-- Witness for C2 at a concrete session: one cycle brings reasoning
"think" (setting startTime, no finalization since it changed), so finish
at time 9 force-sets endTime and emits the notification. -/
theorem C2_reasoning_finished_exactly_once_witness :
    (runProcesses ⟨false, false, id, 0⟩ (initState none)
        [⟨"think", true, 4⟩]).1.startTime.isSome = true ∧
      (runProcesses ⟨false, false, id, 0⟩ (initState none)
        [⟨"think", true, 4⟩]).1.endTime = none ∧
      (finish ⟨false, false, id, 0⟩
          (runProcesses ⟨false, false, id, 0⟩ (initState none)
            [⟨"think", true, 4⟩]).1 9).1.endTime = some 9 ∧
      (finish ⟨false, false, id, 0⟩
          (runProcesses ⟨false, false, id, 0⟩ (initState none)
            [⟨"think", true, 4⟩]).1 9).2.isSome = true := by
  have h := (C2_reasoning_finished_exactly_once ⟨false, false, id, 0⟩ none
    [⟨"think", true, 4⟩] 9).2.1 (by decide) (by decide)
  exact ⟨by decide, by decide, h.1, h.2⟩

end TrackerClaims

section PromptClaims

open Reasoning

/-- C9: with add-to-prompts enabled and max additions 2, three consecutive
non-prefix addToMessage calls with non-empty, non-placeholder reasoning
return the templated combination on the first two (counter reaching 2) and
the content unchanged on the third; calls whose reasoning is empty or the
placeholder sentinel return the content unchanged without incrementing. -/
theorem C9_prompt_injection_counter_cap (cfg : PRConfig) (c1 c2 c3 r1 r2 r3 : String)
    (hadd : cfg.addToPrompts = true) (hmax : cfg.maxAdditions = 2)
    (h1 : r1 ≠ "") (h1p : r1 ≠ REASONING_PLACEHOLDER)
    (h2 : r2 ≠ "") (h2p : r2 ≠ REASONING_PLACEHOLDER)
    (_h3 : r3 ≠ "") (_h3p : r3 ≠ REASONING_PLACEHOLDER) :
    addToMessage cfg 0 c1 r1 false = (promptTemplate cfg r1 c1, 1) ∧
      addToMessage cfg 1 c2 r2 false = (promptTemplate cfg r2 c2, 2) ∧
      addToMessage cfg 2 c3 r3 false = (c3, 2) ∧
      (∀ (counter : Nat) (c r : String) (ipfx : Bool),
        r = "" ∨ r = REASONING_PLACEHOLDER →
          addToMessage cfg counter c r ipfx = (c, counter)) := by
  refine ⟨?_, ?_, ?_, ?_⟩
  · unfold addToMessage promptTemplate
    rw [if_neg (by simp [hadd, hmax]), if_neg (by simp [h1, h1p]),
      if_neg (by simp)]
  · unfold addToMessage promptTemplate
    rw [if_neg (by simp [hadd, hmax]), if_neg (by simp [h2, h2p]),
      if_neg (by simp)]
  · unfold addToMessage
    rw [if_pos (by simp [hadd, hmax])]
  · intro counter c r ipfx hskip
    unfold addToMessage
    by_cases hfirst : (!ipfx && (!cfg.addToPrompts
        || decide (counter ≥ cfg.maxAdditions))) = true
    · rw [if_pos hfirst]
    · rw [if_neg hfirst, if_pos ?hs]
      case hs =>
        rcases hskip with h | h
        · simp [h]
        · simp [h]

/-- Witness for C9 at concrete settings and strings. -/
theorem C9_prompt_injection_counter_cap_witness :
    addToMessage ⟨true, 2, "[p]", "[/p]", "|", id⟩ 0 "c1" "why1" false
        = ("[p]why1[/p]|c1", 1) ∧
      addToMessage ⟨true, 2, "[p]", "[/p]", "|", id⟩ 1 "c2" "why2" false
        = ("[p]why2[/p]|c2", 2) ∧
      addToMessage ⟨true, 2, "[p]", "[/p]", "|", id⟩ 2 "c3" "why3" false
        = ("c3", 2) ∧
      addToMessage ⟨true, 2, "[p]", "[/p]", "|", id⟩ 0 "c4" "" false = ("c4", 0) ∧
      addToMessage ⟨true, 2, "[p]", "[/p]", "|", id⟩ 0 "c5" REASONING_PLACEHOLDER false
        = ("c5", 0) := by
  have h := C9_prompt_injection_counter_cap ⟨true, 2, "[p]", "[/p]", "|", id⟩
    "c1" "c2" "c3" "why1" "why2" "why3" rfl rfl
    (by decide) (by decide) (by decide) (by decide) (by decide) (by decide)
  exact ⟨h.1.trans (by decide), h.2.1.trans (by decide), h.2.2.1,
    h.2.2.2 0 "c4" "" false (Or.inl rfl),
    h.2.2.2 0 "c5" REASONING_PLACEHOLDER false (Or.inr rfl)⟩

/-- C10: an addToMessage call with isPrefix true and non-empty,
non-placeholder reasoning always injects — also when add-to-prompts is
disabled or the counter already reached the maximum — and still
increments the counter; when the content is empty the result is
prefix ++ reasoning with no suffix and no separator. -/
theorem C10_last_message_marker_always_injects (cfg : PRConfig) (counter : Nat)
    (content reasoning : String) (h1 : reasoning ≠ "")
    (h2 : reasoning ≠ REASONING_PLACEHOLDER) :
    addToMessage cfg counter content reasoning true
      = (if content = "" then cfg.subst cfg.pfxS ++ reasoning
          else promptTemplate cfg reasoning content, counter + 1) := by
  unfold addToMessage promptTemplate
  rw [if_neg (by simp), if_neg (by simp [h1, h2])]
  by_cases hc : content = ""
  · rw [if_pos (by simp [hc]), if_pos hc]
  · rw [if_neg (by simp [hc]), if_neg hc]

/-- Witness for C10: with add-to-prompts disabled and the counter far past
the maximum, a prefix call with empty content still returns
prefix ++ reasoning and bumps the counter. -/
theorem C10_last_message_marker_always_injects_witness :
    (("why" : String) ≠ "") ∧ ("why" : String) ≠ REASONING_PLACEHOLDER ∧
      addToMessage ⟨false, 0, "[p]", "[/p]", "|", id⟩ 5 "" "why" true
        = ("[p]why", 6) := by
  have h := C10_last_message_marker_always_injects ⟨false, 0, "[p]", "[/p]", "|", id⟩
    5 "" "why" (by decide) (by decide)
  exact ⟨by decide, by decide, h.trans (by decide)⟩

end PromptClaims
